import Mathlib

/-!
Verification development for the command callbacks of pynsot
(src/pynsot/commands/callbacks.py, Python 2).

The Python code is shallowly embedded: Python dictionaries become
association lists with unique keys maintained by insertion, Python
exceptions become an explicit error type threaded through Except, and
the csv.DictReader-based bulk loader becomes an explicit recursion over
the lines of the input file.
-/

/-- Python values occurring in the embedded callbacks. Dictionaries are
modelled as association lists (unique keys by construction). -/
inductive PyVal where
  | str (s : String)
  | int (n : Int)
  | bool (b : Bool)
  | none
  | strList (xs : List String)
  | dict (m : List (String × PyVal))

/-- Python exceptions raised by the embedded callbacks. usageError models
click.UsageError (the spec calls the attribute-syntax case ValidationError),
badParameter models click.BadParameter (the spec calls it FormatError),
and typeError, valueError and keyError model the built-in Python exceptions
TypeError, AttributeError/TypeError on bad element types, ValueError from
ast.literal_eval, and KeyError from dict indexing. -/
inductive CbError where
  | usageError (msg : String)
  | badParameter (msg : String)
  | typeError (msg : String)
  | valueError (msg : String)
  | keyError (key : String)
deriving DecidableEq, Repr

/-- Decidable equality for Except results, so that concrete runs of the
embedded callbacks can be checked by decide. -/
instance {ε α : Type} [DecidableEq ε] [DecidableEq α] : DecidableEq (Except ε α) := fun x y =>
  match x, y with
  | Except.ok a, Except.ok b =>
      if h : a = b then Decidable.isTrue (by rw [h])
      else Decidable.isFalse (fun hc => h (Except.ok.inj hc))
  | Except.error a, Except.error b =>
      if h : a = b then Decidable.isTrue (by rw [h])
      else Decidable.isFalse (fun hc => h (Except.error.inj hc))
  | Except.ok _, Except.error _ => Decidable.isFalse (fun hc => Except.noConfusion hc)
  | Except.error _, Except.ok _ => Decidable.isFalse (fun hc => Except.noConfusion hc)

/-- Python dict lookup d[k] on an association-list dictionary: first match. -/
def lookupA {κ α : Type} [DecidableEq κ] : List (κ × α) → κ → Option α
  | [], _ => Option.none
  | kv :: r, k => if kv.1 = k then some kv.2 else lookupA r k

/-- Python dict assignment d[k] = v: replace the value in place when the key
exists, otherwise append the new binding. -/
def insertA {κ α : Type} [DecidableEq κ] : List (κ × α) → κ → α → List (κ × α)
  | [], k, v => [(k, v)]
  | kv :: r, k, v => if kv.1 = k then (k, v) :: r else kv :: insertA r k v

/-- Python dict.pop(k): the popped value together with the dictionary
without the first binding of k; Option.none when the key is absent
(Python raises KeyError there, handled at each call site). -/
def popA {κ α : Type} [DecidableEq κ] : List (κ × α) → κ → Option (α × List (κ × α))
  | [], _ => Option.none
  | kv :: r, k =>
      if kv.1 = k then some (kv.2, r)
      else
        match popA r k with
        | some (v, r2) => some (v, kv :: r2)
        | Option.none => Option.none

/-- Python dict.update(other): insert every binding of the second dictionary
into the first, in the order the second lists them. -/
def dictUpdate {κ α : Type} [DecidableEq κ] (d other : List (κ × α)) : List (κ × α) :=
  other.foldl (fun acc kv => insertA acc kv.1 kv.2) d

/-- mapExcept f over a list: the Python comprehension [f(v) for v in l],
failing at the first element on which f raises. -/
def mapExcept {α β : Type} (f : α → Except CbError β) : List α → Except CbError (List β)
  | [] => Except.ok []
  | a :: as =>
      match f a with
      | Except.error e => Except.error e
      | Except.ok b =>
          match mapExcept f as with
          | Except.error e => Except.error e
          | Except.ok bs => Except.ok (b :: bs)

/-- Python str.split on a one-character separator, on character lists
(structural recursion so that concrete inputs evaluate). -/
def splitSep (sep : Char) : List Char → List (List Char)
  | [] => [[]]
  | c :: cs =>
      if c = sep then [] :: splitSep sep cs
      else
        match splitSep sep cs with
        | [] => [[c]]
        | g :: gs => (c :: g) :: gs

/-- Python str.split on a one-character separator. -/
def pySplit (s : String) (sep : Char) : List String :=
  (splitSep sep s.data).map String.mk

/-- Python str.partition on the equals character: the characters before and
after the first equals sign, when there is one. -/
def breakAtEq : List Char → Option (List Char × List Char)
  | [] => Option.none
  | c :: cs =>
      if c = Char.ofNat 61 then some ([], cs)
      else
        match breakAtEq cs with
        | some (a, b) => some (c :: a, b)
        | Option.none => Option.none

/-- The part of attr.partition before the first equals sign (attr itself
when it has none). -/
def partKey (s : String) : String :=
  match breakAtEq s.data with
  | some (a, _) => String.mk a
  | Option.none => s

/-- The part of attr.partition after the first equals sign (empty when it
has none). -/
def partVal (s : String) : String :=
  match breakAtEq s.data with
  | some (_, b) => String.mk b
  | Option.none => ""

/-- Python str.split on a comma, applied to one element of the attribute
argument list; any non-string element raises (AttributeError in Python,
modelled as typeError) because it has no split method. -/
def pySplitComma : PyVal → Except CbError (List String)
  | PyVal.str s => Except.ok (pySplit s (Char.ofNat 44))
  | PyVal.int _ => Except.error (CbError.typeError ("int object has no attribute split"))
  | PyVal.bool _ => Except.error (CbError.typeError ("bool object has no attribute split"))
  | PyVal.none => Except.error (CbError.typeError ("NoneType object has no attribute split"))
  | PyVal.strList _ => Except.error (CbError.typeError ("list object has no attribute split"))
  | PyVal.dict _ => Except.error (CbError.typeError ("dict object has no attribute split"))

/-- The per-item loop of transform_attributes: partition each item on the
first equals sign, raise click.UsageError on an empty key, otherwise record
the pair in the parse log (ctx root attribute list) and in the attrs dict.
The isinstance(val, int) cast in the source never fires because the
partition of a string always yields strings. -/
def parseItems : List String → List (String × String) → List (String × String) →
    Except CbError (List (String × String) × List (String × String))
  | [], attrs, lg => Except.ok (attrs, lg)
  | attr :: rest, attrs, lg =>
      let k := partKey attr
      let v := partVal attr
      if k = "" then
        Except.error (CbError.usageError ("Invalid attribute: " ++ attr ++ "; format should be key=value"))
      else parseItems rest (insertA attrs k v) (lg ++ [(k, v)])

/-- transform_attributes on an already-listed value: split every element on
commas, flatten through a set (List.dedup models the set: membership is
faithful, Python iteration order is unspecified), then run the per-item
loop. Returns the attrs dict together with the entries appended to the
invocation's parse log. -/
def transform_attributes (value : List PyVal) :
    Except CbError (List (String × String) × List (String × String)) :=
  match mapExcept pySplitComma value with
  | Except.error e => Except.error e
  | Except.ok values => parseItems (values.flatten).dedup [] []

/-- transform_attributes on an arbitrary Python value, as called from
process_bulk_add: a plain string is wrapped in a singleton list first;
iterating a list of strings or a dict (whose iteration yields its keys)
feeds those strings to the core; non-iterable values raise TypeError. -/
def transform_attributes_py : PyVal →
    Except CbError (List (String × String) × List (String × String))
  | PyVal.str s => transform_attributes [PyVal.str s]
  | PyVal.strList xs => transform_attributes (xs.map PyVal.str)
  | PyVal.dict m => transform_attributes (m.map (fun kv => PyVal.str kv.1))
  | PyVal.none => Except.error (CbError.typeError ("NoneType object is not iterable"))
  | PyVal.int _ => Except.error (CbError.typeError ("int object is not iterable"))
  | PyVal.bool _ => Except.error (CbError.typeError ("bool object is not iterable"))

/-- Python str.title character recursion: an alphabetic character is
uppercased when the previous character was not alphabetic and lowercased
otherwise; other characters pass through and reset the word boundary. -/
def pyTitleAux : Bool → List Char → List Char
  | _, [] => []
  | prev, c :: cs =>
      (if c.isAlpha then (if prev then c.toLower else c.toUpper) else c) :: pyTitleAux c.isAlpha cs

/-- Python str.title (ASCII word semantics, sufficient for the values the
bulk loader titles). -/
def pyTitle (s : String) : String := String.mk (pyTitleAux false s.data)

/-- ast.literal_eval restricted to the strings the bulk loader applies it to
(strings whose title-cased form is True or False): exactly the two Python
boolean literals evaluate, every other casing raises ValueError. -/
def literalEvalBool (s : String) : Except CbError PyVal :=
  if s = "True" then Except.ok (PyVal.bool true)
  else if s = "False" then Except.ok (PyVal.bool false)
  else Except.error (CbError.valueError ("malformed string"))

/-- Resource types without attributes (the NO_ATTRIBUTES tuple). -/
def NO_ATTRIBUTES : List String := ["attributes"]

/-- A row produced by csv.DictReader: field name (or Option.none for the
restkey that collects extra fields) mapped to field value. -/
abbrev Row := List (Option String × PyVal)

/-- Fields of a physical line under the colon delimiter, as csv.reader
produces them: a blank line yields no fields, otherwise split on colons
(quoting is not modelled; the inputs considered contain no quote
characters). -/
def lineFields (l : String) : List String := if l = "" then [] else pySplit l (Char.ofNat 58)

/-- csv.DictReader row construction: dict(zip(fieldnames, row)), missing
trailing fields padded with the restval None, extra fields collected in a
list under the restkey None. Built by dict insertion so duplicate field
names collapse the way a Python dict does. -/
def buildRow (fn fields : List String) : Row :=
  let padded := fn.zip (fields.map PyVal.str) ++ (fn.drop fields.length).map (fun k => (k, PyVal.none))
  let base := padded.foldl (fun d kv => insertA d (some kv.1) kv.2) []
  if fn.length < fields.length then
    insertA base Option.none (PyVal.strList (fields.drop fn.length))
  else base

/-- The boolean-coercion loop body of process_bulk_add for one dict entry:
dict values are skipped, non-string values raise click.BadParameter citing
the line number, and a string whose title-cased form is True or False is
replaced by ast.literal_eval of the original string. -/
def coerceEntry (lineno : Nat) : (Option String × PyVal) → Except CbError (Option String × PyVal)
  | (k, PyVal.dict m) => Except.ok (k, PyVal.dict m)
  | (k, PyVal.str v) =>
      if pyTitle v = "True" ∨ pyTitle v = "False" then
        match literalEvalBool v with
        | Except.error e => Except.error e
        | Except.ok b => Except.ok (k, b)
      else Except.ok (k, PyVal.str v)
  | (_, _) => Except.error (CbError.badParameter ("Error parsing file on line " ++ toString lineno))

/-- One iteration of the row loop of process_bulk_add: build the row dict,
check its size against the header (csv padding means only rows with extra
fields can fail here), route the attributes field through
transform_attributes for attribute-bearing resource types (indexing raises
KeyError when the header lacks an attributes column), then run the
boolean-coercion loop over every entry. -/
def processRow (p : String) (fn : List String) (lineno : Nat) (line : String) :
    Except CbError Row :=
  let r := buildRow fn (lineFields line)
  if r.length ≠ fn.length then
    Except.error (CbError.badParameter ("File has wrong number of fields on line " ++ toString lineno))
  else
    let step :=
      if NO_ATTRIBUTES.contains p then Except.ok r
      else
        match lookupA r (some ("attributes")) with
        | Option.none => Except.error (CbError.keyError ("attributes"))
        | some v =>
            match transform_attributes_py v with
            | Except.error e => Except.error e
            | Except.ok a =>
                Except.ok (insertA r (some ("attributes"))
                  (PyVal.dict (a.1.map (fun kv => (kv.1, PyVal.str kv.2)))))
    match step with
    | Except.error e => Except.error e
    | Except.ok r1 => mapExcept (coerceEntry lineno) r1

/-- The data-row loop of process_bulk_add. n is the physical number of the
next unread line; rep carries the line number csv.DictReader reports for
the current next() call, which is the number of the first line that call
read, so blank lines skipped inside the call leave the reported number
stale exactly as csv.DictReader.line_num does. -/
def bulkLoop (p : String) (fn : List String) : Option Nat → Nat → List String →
    Except CbError (List Row)
  | _, _, [] => Except.ok []
  | rep, n, l :: ls =>
      if l = "" then bulkLoop p fn (some (rep.getD n)) (n+1) ls
      else
        match processRow p fn (rep.getD n) l with
        | Except.error e => Except.error e
        | Except.ok r =>
            match bulkLoop p fn Option.none (n+1) ls with
            | Except.error e => Except.error e
            | Except.ok rest => Except.ok (r :: rest)

/-- process_bulk_add on the lines of the already-open file: the first line
is the header (the field names), every further non-blank line becomes one
record, and the first failing row aborts the whole load. -/
def process_bulk_add (p : String) (lines : List String) : Except CbError (List Row) :=
  match lines with
  | [] => Except.ok []
  | hdr :: rest => bulkLoop p (lineFields hdr) Option.none 2 rest

/-- The independent per-row outcomes of a bulk load, with the same line
numbering as bulkLoop: one entry per non-blank data line, in order. -/
def bulkResultsLoop (p : String) (fn : List String) : Option Nat → Nat → List String →
    List (Except CbError Row)
  | _, _, [] => []
  | rep, n, l :: ls =>
      if l = "" then bulkResultsLoop p fn (some (rep.getD n)) (n+1) ls
      else processRow p fn (rep.getD n) l :: bulkResultsLoop p fn Option.none (n+1) ls

/-- The per-row outcomes of process_bulk_add on a whole file. -/
def bulkResults (p : String) (lines : List String) : List (Except CbError Row) :=
  match lines with
  | [] => []
  | hdr :: rest => bulkResultsLoop p (lineFields hdr) Option.none 2 rest

/-- The successful values among a list of outcomes, in order. -/
def okList : List (Except CbError Row) → List Row
  | [] => []
  | Except.ok r :: rest => r :: okList rest
  | Except.error _ :: rest => okList rest

/-- A generic record (dict of Python values), as handled by
process_constraints and the parameter handling of list_subcommand. -/
abbrev Rec := List (String × PyVal)

/-- The constraint-extraction loop of process_constraints over the
constraint fields of one record: obj.pop(c_field) moves the field into the
constraints dict, a KeyError (absent field) is skipped. -/
def constrainLoop : List (String × PyVal) → Rec → List String → (List (String × PyVal) × Rec)
  | cs, r, [] => (cs, r)
  | cs, r, c :: rest =>
      match popA r c with
      | some (v, r2) => constrainLoop (insertA cs c v) r2 rest
      | Option.none => constrainLoop cs r rest

/-- process_constraints on one record: move every present constraint field
into a fresh constraints dict, then store that dict under the key
constraints. -/
def constrainOne (cf : List String) (r : Rec) : Rec :=
  let p := constrainLoop [] r cf
  insertA p.2 ("constraints") (PyVal.dict p.1)

/-- The argument shape process_constraints receives: a single record or a
list of records (bulk). -/
inductive CData where
  | single (r : Rec)
  | many (rs : List Rec)

/-- process_constraints: normalize to a list internally, rewrite every
record, and hand back the same shape that came in (the Python mutates the
records in place and returns the data argument itself). -/
def process_constraints (data : CData) (cf : List String) : CData :=
  match data with
  | CData.single r => CData.single (constrainOne cf r)
  | CData.many rs => CData.many (rs.map (constrainOne cf))

/-- The constraints dict of a processed record, looked up by field name. -/
def constraintsOf (r : Rec) (c : String) : Option PyVal :=
  match lookupA r ("constraints") with
  | some (PyVal.dict m) => lookupA m c
  | _ => Option.none

/-- Python is None, as a boolean discriminator on embedded values. -/
def PyVal.isNone : PyVal → Bool
  | PyVal.none => true
  | _ => false

/-- get_resource_by_natural_key, with the Lookup Service call
ctx.obj.get_single_object(data, resource) abstracted into its result: start
from resource_id = None, take obj[chr105chr100] when an object came back
(KeyError when the object lacks the key), and raise click.UsageError naming
the resource when the id is still None. -/
def get_resource_by_natural_key (obj : Option Rec) (resource_name : String) :
    Except CbError PyVal :=
  let step :=
    match obj with
    | Option.none => Except.ok PyVal.none
    | some o =>
        match lookupA o ("id") with
        | some v => Except.ok v
        | Option.none => Except.error (CbError.keyError ("id"))
  match step with
  | Except.error e => Except.error e
  | Except.ok resource_id =>
      if resource_id.isNone then
        Except.error (CbError.usageError
          ("No matching " ++ resource_name ++ " found; try lookup using option \"-i\" / \"--id\"."))
      else Except.ok resource_id

/-- The data-preparation prefix of list_subcommand: data = ctx.parent.params
binds the parent's own params dict (no copy), data.update(ctx.params)
overlays the child's params into that same dict, and data.pop(chr105chr100)
removes the parent id from it (KeyError when absent). Because of the
aliasing, the returned dict is also the caller-visible value of
ctx.parent.params once the prefix has run. -/
def list_subcommand_data (parentParams ownParams : Rec) : Except CbError (Rec × PyVal) :=
  let data := dictUpdate parentParams ownParams
  match popA data ("id") with
  | some (v, d2) => Except.ok (d2, v)
  | Option.none => Except.error (CbError.keyError ("id"))


/-- Whether an outcome is a success. -/
def isOkE : Except CbError Row → Bool
  | Except.ok _ => true
  | Except.error _ => false

theorem lookupA_insertA_self {κ α : Type} [DecidableEq κ] (r : List (κ × α)) (k : κ) (v : α) :
    lookupA (insertA r k v) k = some v := by
  induction r with
  | nil => simp [insertA, lookupA]
  | cons kv r ih =>
      by_cases h : kv.1 = k
      · simp [insertA, lookupA, h]
      · simp [insertA, lookupA, h, ih]

theorem lookupA_insertA_ne {κ α : Type} [DecidableEq κ] (r : List (κ × α)) (k k' : κ) (v : α)
    (h : k' ≠ k) : lookupA (insertA r k v) k' = lookupA r k' := by
  induction r with
  | nil => simp [insertA, lookupA, Ne.symm h]
  | cons kv r ih =>
      by_cases hk : kv.1 = k
      · have hne : kv.1 ≠ k' := by rw [hk]; exact Ne.symm h
        simp [insertA, lookupA, hk, Ne.symm h, hne]
      · by_cases hk' : kv.1 = k'
        · simp [insertA, lookupA, hk, hk', h]
        · simp [insertA, lookupA, hk, hk', ih]

theorem lookupA_eq_none_iff {κ α : Type} [DecidableEq κ] (r : List (κ × α)) (k : κ) :
    lookupA r k = Option.none ↔ k ∉ r.map Prod.fst := by
  induction r with
  | nil => simp [lookupA]
  | cons kv r ih =>
      by_cases h : kv.1 = k
      · simp [lookupA, h]
      · simp [lookupA, h, ih, Ne.symm h]

theorem popA_eq_none_iff {κ α : Type} [DecidableEq κ] (r : List (κ × α)) (k : κ) :
    popA r k = Option.none ↔ lookupA r k = Option.none := by
  induction r with
  | nil => simp [popA, lookupA]
  | cons kv r ih =>
      by_cases h : kv.1 = k
      · simp [popA, lookupA, h]
      · simp only [popA, lookupA, if_neg h]
        cases hp : popA r k with
        | none => simp [ih.mp hp]
        | some p =>
            have : lookupA r k ≠ Option.none := fun hc => by
              have h2 := ih.mpr hc
              rw [hp] at h2
              cases h2
            simp [this]

theorem popA_some_lookup {κ α : Type} [DecidableEq κ] (r : List (κ × α)) (k : κ) (v : α)
    (r2 : List (κ × α)) (h : popA r k = some (v, r2)) : lookupA r k = some v := by
  induction r generalizing r2 with
  | nil => cases h
  | cons kv r ih =>
      by_cases hk : kv.1 = k
      · simp [popA, hk] at h
        simp [lookupA, hk, h.1]
      · simp only [popA, if_neg hk] at h
        cases hp : popA r k with
        | none => rw [hp] at h; cases h
        | some p =>
            obtain ⟨v', r2'⟩ := p
            rw [hp] at h
            simp only [Option.some.injEq, Prod.mk.injEq] at h
            obtain ⟨hv, -⟩ := h
            subst hv
            simp only [lookupA, if_neg hk]
            exact ih r2' hp

theorem popA_some_lookup_ne {κ α : Type} [DecidableEq κ] (r : List (κ × α)) (k k' : κ) (v : α)
    (r2 : List (κ × α)) (h : popA r k = some (v, r2)) (hne : k' ≠ k) :
    lookupA r2 k' = lookupA r k' := by
  induction r generalizing r2 with
  | nil => cases h
  | cons kv r ih =>
      by_cases hk : kv.1 = k
      · simp [popA, hk] at h
        have hne2 : kv.1 ≠ k' := by rw [hk]; exact Ne.symm hne
        rw [← h.2]
        simp [lookupA, hne2]
      · simp only [popA, if_neg hk] at h
        cases hp : popA r k with
        | none => rw [hp] at h; cases h
        | some p =>
            obtain ⟨v', r2'⟩ := p
            rw [hp] at h
            simp only [Option.some.injEq, Prod.mk.injEq] at h
            obtain ⟨hv, hr⟩ := h
            subst hv
            rw [← hr]
            by_cases hk' : kv.1 = k'
            · simp [lookupA, hk']
            · simp only [lookupA, if_neg hk']
              exact ih r2' hp

theorem mem_keys_insertA {κ α : Type} [DecidableEq κ] (r : List (κ × α)) (k x : κ) (v : α) :
    x ∈ (insertA r k v).map Prod.fst ↔ x ∈ r.map Prod.fst ∨ x = k := by
  induction r with
  | nil => simp [insertA]
  | cons kv r ih =>
      obtain ⟨k1, v1⟩ := kv
      by_cases h : k1 = k
      · subst h
        simp [insertA]
        tauto
      · simp [insertA, h, ih]
        tauto

theorem insertA_nodup {κ α : Type} [DecidableEq κ] (r : List (κ × α)) (k : κ) (v : α)
    (h : (r.map Prod.fst).Nodup) : ((insertA r k v).map Prod.fst).Nodup := by
  induction r with
  | nil => simp [insertA]
  | cons kv r ih =>
      obtain ⟨k1, v1⟩ := kv
      simp only [List.map_cons, List.nodup_cons] at h
      by_cases hk : k1 = k
      · subst hk
        simpa [insertA] using h
      · simp only [insertA, if_neg hk, List.map_cons, List.nodup_cons]
        refine ⟨?_, ih h.2⟩
        intro hmem
        rcases (mem_keys_insertA r k k1 v).mp hmem with hm | hm
        · exact h.1 hm
        · exact hk hm

theorem popA_some_nodup {κ α : Type} [DecidableEq κ] (r : List (κ × α)) (k : κ) (v : α)
    (r2 : List (κ × α)) (hnd : (r.map Prod.fst).Nodup) (h : popA r k = some (v, r2)) :
    ((r2.map Prod.fst).Nodup ∧ lookupA r2 k = Option.none) := by
  induction r generalizing r2 with
  | nil => cases h
  | cons kv r ih =>
      obtain ⟨k1, v1⟩ := kv
      simp only [List.map_cons, List.nodup_cons] at hnd
      by_cases hk : k1 = k
      · subst hk
        simp [popA] at h
        rw [← h.2]
        exact ⟨hnd.2, (lookupA_eq_none_iff r k1).mpr hnd.1⟩
      · simp only [popA, if_neg hk] at h
        cases hp : popA r k with
        | none => rw [hp] at h; cases h
        | some p =>
            obtain ⟨v2, r2p⟩ := p
            rw [hp] at h
            simp only [Option.some.injEq, Prod.mk.injEq] at h
            obtain ⟨hv, hr⟩ := h
            rw [hv] at hp
            obtain ⟨hnd2, hlook2⟩ := ih r2p hnd.2 hp
            rw [← hr]
            constructor
            · simp only [List.map_cons, List.nodup_cons]
              refine ⟨?_, hnd2⟩
              intro hmem
              have hne : lookupA r2p k1 ≠ Option.none :=
                fun hc => (lookupA_eq_none_iff r2p k1).mp hc hmem
              have heq : lookupA r2p k1 = lookupA r k1 :=
                popA_some_lookup_ne r k k1 v r2p hp hk
              have hnone : lookupA r k1 = Option.none :=
                (lookupA_eq_none_iff r k1).mpr hnd.1
              exact hne (heq.trans hnone)
            · simp only [lookupA, if_neg hk]
              exact hlook2

theorem dictUpdate_cons {κ α : Type} [DecidableEq κ] (d : List (κ × α)) (kv : κ × α)
    (rest : List (κ × α)) :
    dictUpdate d (kv :: rest) = dictUpdate (insertA d kv.1 kv.2) rest := rfl

theorem lookupA_dictUpdate_none {κ α : Type} [DecidableEq κ] (other : List (κ × α)) :
    ∀ (d : List (κ × α)) (k : κ), lookupA other k = Option.none →
      lookupA (dictUpdate d other) k = lookupA d k := by
  induction other with
  | nil => intro d k _; rfl
  | cons kv rest ih =>
      intro d k h
      by_cases hk : kv.1 = k
      · simp [lookupA, hk] at h
      · simp only [lookupA, if_neg hk] at h
        rw [dictUpdate_cons, ih _ _ h]
        exact lookupA_insertA_ne d kv.1 k kv.2 (fun hh => hk hh.symm)

theorem lookupA_dictUpdate_some {κ α : Type} [DecidableEq κ] (other : List (κ × α))
    (hnd : (other.map Prod.fst).Nodup) :
    ∀ (d : List (κ × α)) (k : κ) (v : α), lookupA other k = some v →
      lookupA (dictUpdate d other) k = some v := by
  induction other with
  | nil => intro d k v h; cases h
  | cons kv rest ih =>
      simp only [List.map_cons, List.nodup_cons] at hnd
      intro d k v h
      by_cases hk : kv.1 = k
      · simp only [lookupA, if_pos hk, Option.some.injEq] at h
        have hrest : lookupA rest k = Option.none :=
          (lookupA_eq_none_iff rest k).mpr (hk ▸ hnd.1)
        rw [dictUpdate_cons, lookupA_dictUpdate_none rest _ _ hrest]
        rw [← h, hk]
        exact lookupA_insertA_self d k kv.2
      · simp only [lookupA, if_neg hk] at h
        rw [dictUpdate_cons]
        exact ih hnd.2 _ _ _ h

theorem dictUpdate_nodup {κ α : Type} [DecidableEq κ] (other : List (κ × α)) :
    ∀ (d : List (κ × α)), (d.map Prod.fst).Nodup →
      ((dictUpdate d other).map Prod.fst).Nodup := by
  induction other with
  | nil => intro d h; exact h
  | cons kv rest ih =>
      intro d h
      rw [dictUpdate_cons]
      exact ih _ (insertA_nodup d kv.1 kv.2 h)

theorem mem_insertA {κ α : Type} [DecidableEq κ] (r : List (κ × α)) (k : κ) (v : α)
    (kv : κ × α) (h : kv ∈ insertA r k v) : kv = (k, v) ∨ kv ∈ r := by
  induction r with
  | nil => simpa [insertA] using h
  | cons kv1 r ih =>
      by_cases hk : kv1.1 = k
      · simp only [insertA, if_pos hk, List.mem_cons] at h
        rcases h with h | h
        · exact Or.inl h
        · exact Or.inr (List.mem_cons_of_mem _ h)
      · simp only [insertA, if_neg hk, List.mem_cons] at h
        rcases h with h | h
        · exact Or.inr (h ▸ List.mem_cons_self _ _)
        · rcases ih h with h2 | h2
          · exact Or.inl h2
          · exact Or.inr (List.mem_cons_of_mem _ h2)

theorem parseItems_ok_keys :
    ∀ (items : List String) (attrs lg a l : List (String × String)),
      parseItems items attrs lg = Except.ok (a, l) →
      (∀ kv ∈ attrs, kv.1 ≠ "") → ∀ kv ∈ a, kv.1 ≠ "" := by
  intro items
  induction items with
  | nil =>
      intro attrs lg a l h hinv
      simp only [parseItems, Except.ok.injEq, Prod.mk.injEq] at h
      rw [← h.1]
      exact hinv
  | cons attr rest ih =>
      intro attrs lg a l h hinv
      by_cases hk : partKey attr = ""
      · simp [parseItems, hk] at h
      · simp only [parseItems, if_neg hk] at h
        refine ih _ _ _ _ h ?_
        intro kv hkv
        rcases mem_insertA attrs (partKey attr) (partVal attr) kv hkv with h2 | h2
        · rw [h2]
          exact hk
        · exact hinv kv h2

theorem parseItems_ok_sub :
    ∀ (items : List String) (attrs lg a l : List (String × String)),
      parseItems items attrs lg = Except.ok (a, l) →
      (∀ kv ∈ attrs, kv ∈ lg) → ∀ kv ∈ a, kv ∈ l := by
  intro items
  induction items with
  | nil =>
      intro attrs lg a l h hinv
      simp only [parseItems, Except.ok.injEq, Prod.mk.injEq] at h
      rw [← h.1, ← h.2]
      exact hinv
  | cons attr rest ih =>
      intro attrs lg a l h hinv
      by_cases hk : partKey attr = ""
      · simp [parseItems, hk] at h
      · simp only [parseItems, if_neg hk] at h
        refine ih _ _ _ _ h ?_
        intro kv hkv
        rcases mem_insertA attrs (partKey attr) (partVal attr) kv hkv with h2 | h2
        · rw [h2]
          exact List.mem_append_right _ (List.mem_singleton.mpr rfl)
        · exact List.mem_append_left _ (hinv kv h2)

theorem parseItems_usage_iff :
    ∀ (items : List String) (attrs lg : List (String × String)),
      (∃ msg, parseItems items attrs lg = Except.error (CbError.usageError msg)) ↔
        ∃ tok ∈ items, partKey tok = "" := by
  intro items
  induction items with
  | nil => intro attrs lg; simp [parseItems]
  | cons attr rest ih =>
      intro attrs lg
      by_cases hk : partKey attr = ""
      · constructor
        · intro _
          exact ⟨attr, List.mem_cons_self _ _, hk⟩
        · intro _
          refine ⟨"Invalid attribute: " ++ attr ++ "; format should be key=value", ?_⟩
          simp [parseItems, hk]
      · simp only [parseItems, if_neg hk]
        rw [ih]
        constructor
        · rintro ⟨tok, htok, hemp⟩
          exact ⟨tok, List.mem_cons_of_mem _ htok, hemp⟩
        · rintro ⟨tok, htok, hemp⟩
          rcases List.mem_cons.mp htok with h2 | h2
          · exact absurd (h2 ▸ hemp) hk
          · exact ⟨tok, h2, hemp⟩

theorem mapExcept_str (ss : List String) :
    mapExcept pySplitComma (ss.map PyVal.str) =
      Except.ok (ss.map (fun s => pySplit s (Char.ofNat 44))) := by
  induction ss with
  | nil => rfl
  | cons s rest ih => simp [mapExcept, pySplitComma, ih]

theorem mapExcept_int_err :
    ∀ (value : List PyVal) (n : Int), PyVal.int n ∈ value →
      ∃ msg, mapExcept pySplitComma value = Except.error (CbError.typeError msg) := by
  intro value
  induction value with
  | nil => intro n h; cases h
  | cons v rest ih =>
      intro n h
      cases v with
      | str s =>
          have hmem : PyVal.int n ∈ rest := by
            rcases List.mem_cons.mp h with h2 | h2
            · cases h2
            · exact h2
          obtain ⟨msg, herr⟩ := ih n hmem
          exact ⟨msg, by simp [mapExcept, pySplitComma, herr]⟩
      | int m => exact ⟨"int object has no attribute split", by simp [mapExcept, pySplitComma]⟩
      | bool b => exact ⟨"bool object has no attribute split", by simp [mapExcept, pySplitComma]⟩
      | none => exact ⟨"NoneType object has no attribute split", by simp [mapExcept, pySplitComma]⟩
      | strList xs => exact ⟨"list object has no attribute split", by simp [mapExcept, pySplitComma]⟩
      | dict m => exact ⟨"dict object has no attribute split", by simp [mapExcept, pySplitComma]⟩

theorem transform_attributes_ok_keys (value : List PyVal)
    (attrs lg : List (String × String))
    (h : transform_attributes value = Except.ok (attrs, lg)) :
    ∀ kv ∈ attrs, kv.1 ≠ "" := by
  unfold transform_attributes at h
  cases hm : mapExcept pySplitComma value with
  | error e => rw [hm] at h; cases h
  | ok values =>
      rw [hm] at h
      exact parseItems_ok_keys _ _ _ _ _ h (by intro kv hkv; cases hkv)

theorem transform_attributes_ok_sub (value : List PyVal)
    (attrs lg : List (String × String))
    (h : transform_attributes value = Except.ok (attrs, lg)) :
    ∀ kv ∈ attrs, kv ∈ lg := by
  unfold transform_attributes at h
  cases hm : mapExcept pySplitComma value with
  | error e => rw [hm] at h; cases h
  | ok values =>
      rw [hm] at h
      exact parseItems_ok_sub _ _ _ _ _ h (by intro kv hkv; cases hkv)

theorem transform_attributes_usage_iff (ss : List String) :
    (∃ msg, transform_attributes (ss.map PyVal.str) =
        Except.error (CbError.usageError msg)) ↔
      ∃ tok, tok ∈ (ss.map (fun s => pySplit s (Char.ofNat 44))).flatten ∧ partKey tok = "" := by
  unfold transform_attributes
  rw [mapExcept_str]
  constructor
  · intro h
    obtain ⟨tok, htok, hemp⟩ := (parseItems_usage_iff _ _ _).mp h
    exact ⟨tok, (List.mem_dedup).mp htok, hemp⟩
  · rintro ⟨tok, htok, hemp⟩
    exact (parseItems_usage_iff _ _ _).mpr ⟨tok, (List.mem_dedup).mpr htok, hemp⟩

/-- C4 counterexample: the attribute parser applied to the single token
novalue (which contains no equals sign) does not fail: the partition yields
the non-empty key novalue with an empty value, which the code accepts. -/
theorem c4_novalue_succeeds :
    transform_attributes [PyVal.str ("novalue")] =
      Except.ok ([("novalue", "")], [("novalue", "")]) := by decide

/-- C4 amended: parse([novalue]) succeeds and maps the token novalue to the
empty-string value; the ValidationError naming the offending token and the
expected key=value format is raised exactly for tokens whose part before
the first equals sign is empty, for example the token =1. -/
theorem c4_empty_key_amended :
    transform_attributes [PyVal.str ("novalue")] =
      Except.ok ([("novalue", "")], [("novalue", "")]) ∧
    transform_attributes [PyVal.str ("=1")] =
      Except.error (CbError.usageError ("Invalid attribute: =1; format should be key=value")) := by
  exact ⟨by decide, by decide⟩

/-- C5: every binding of the attribute map returned by a successful parse
was also appended to the parse log, and concretely parse([a=1,b=2]) yields
the map sending a to 1 and b to 2 with both pairs in the log. -/
theorem c5_parse_pairs :
    (∀ (value : List PyVal) (attrs lg : List (String × String)),
        transform_attributes value = Except.ok (attrs, lg) →
        ∀ kv ∈ attrs, kv ∈ lg) ∧
    (∃ attrs lg, transform_attributes [PyVal.str ("a=1,b=2")] = Except.ok (attrs, lg) ∧
      lookupA attrs ("a") = some ("1") ∧ lookupA attrs ("b") = some ("2") ∧
      ("a", "1") ∈ lg ∧ ("b", "2") ∈ lg) := by
  constructor
  · exact fun value attrs lg h => transform_attributes_ok_sub value attrs lg h
  · exact ⟨[("a", "1"), ("b", "2")], [("a", "1"), ("b", "2")],
      by decide, by decide, by decide, by decide, by decide⟩

/-- C5 witness: the general half of c5_parse_pairs applied to the concrete
parse of a=1,b=2 puts the pair (a, 1) in the parse log. -/
theorem c5_parse_pairs_witness : ("a", "1") ∈ [("a", "1"), ("b", "2")] :=
  c5_parse_pairs.1 [PyVal.str ("a=1,b=2")] [("a", "1"), ("b", "2")]
    [("a", "1"), ("b", "2")] (by decide) ("a", "1") (by decide)

/-- C9 counterexample: the attribute parser applied to the single integer
element 5 raises a TypeError at the comma-splitting step (an integer has no
split method); no value is stored, so nothing is stringified. -/
theorem c9_int_input_type_error :
    transform_attributes [PyVal.int 5] =
      Except.error (CbError.typeError ("int object has no attribute split")) := by decide

/-- C9 amended: an integer element anywhere in the parser input makes the
whole parse fail with a TypeError during comma flattening, before any pair
is stored; the integer-to-string cast in the source guards the partitioned
value, which is always already a string, so it never fires. -/
theorem c9_int_input_amended (value : List PyVal) (n : Int)
    (h : PyVal.int n ∈ value) :
    ∃ msg, transform_attributes value = Except.error (CbError.typeError msg) := by
  obtain ⟨msg, herr⟩ := mapExcept_int_err value n h
  exact ⟨msg, by simp [transform_attributes, herr]⟩

/-- C9 witness: the amended statement applied to the concrete input [5]. -/
theorem c9_int_input_amended_witness :
    ∃ msg, transform_attributes [PyVal.int 5] =
      Except.error (CbError.typeError msg) :=
  c9_int_input_amended [PyVal.int 5] 5 (List.mem_singleton.mpr rfl)

/-- C10: a successful parse returns an attribute map whose keys are all
non-empty, and on string inputs the parser raises its ValidationError
exactly when some comma-flattened token has an empty part before its first
equals sign. -/
theorem c10_nonempty_keys :
    (∀ (value : List PyVal) (attrs lg : List (String × String)),
        transform_attributes value = Except.ok (attrs, lg) →
        ∀ kv ∈ attrs, kv.1 ≠ "") ∧
    (∀ ss : List String,
        (∃ msg, transform_attributes (ss.map PyVal.str) =
            Except.error (CbError.usageError msg)) ↔
          ∃ tok, tok ∈ (ss.map (fun s => pySplit s (Char.ofNat 44))).flatten ∧ partKey tok = "") := by
  constructor
  · exact fun value attrs lg h => transform_attributes_ok_keys value attrs lg h
  · exact fun ss => transform_attributes_usage_iff ss

/-- C10 witness: the failure direction at the concrete input [=x] (whose
only token has an empty left-hand side). -/
theorem c10_nonempty_keys_witness :
    ∃ msg, transform_attributes (["=x"].map PyVal.str) =
      Except.error (CbError.usageError msg) :=
  (c10_nonempty_keys.2 ["=x"]).mpr ⟨"=x", by decide, by decide⟩

theorem bulkLoop_ok_iff (p : String) (fn : List String) (ls : List String) :
    ∀ (rep : Option Nat) (n : Nat) (res : List Row),
      bulkLoop p fn rep n ls = Except.ok res ↔
        ((∀ r ∈ bulkResultsLoop p fn rep n ls, isOkE r = true) ∧
          res = okList (bulkResultsLoop p fn rep n ls)) := by
  induction ls with
  | nil =>
      intro rep n res
      constructor
      · intro h
        have h2 : Except.ok (ε := CbError) ([] : List Row) = Except.ok res := h
        have h3 := Except.ok.inj h2
        rw [← h3]
        exact ⟨(by intro r hr; cases hr), rfl⟩
      · rintro ⟨-, hres⟩
        rw [hres]
        rfl
  | cons l ls ih =>
      intro rep n res
      by_cases hl : l = ""
      · simp only [bulkLoop, bulkResultsLoop, if_pos hl]
        exact ih _ _ _
      · simp only [bulkLoop, bulkResultsLoop, if_neg hl]
        cases hpr : processRow p fn (rep.getD n) l with
        | error e => simp [okList, isOkE, List.forall_mem_cons]
        | ok r =>
            cases hbl : bulkLoop p fn Option.none (n+1) ls with
            | error e =>
                constructor
                · intro h; cases h
                · rintro ⟨hall, -⟩
                  simp only [List.forall_mem_cons] at hall
                  have h2 := (ih Option.none (n+1)
                    (okList (bulkResultsLoop p fn Option.none (n+1) ls))).mpr ⟨hall.2, rfl⟩
                  rw [hbl] at h2
                  cases h2
            | ok tail =>
                obtain ⟨hall, htail⟩ := (ih Option.none (n+1) tail).mp hbl
                simp only [okList, isOkE, List.forall_mem_cons, Except.ok.injEq, true_and]
                constructor
                · intro h
                  exact ⟨hall, by rw [← h, htail]⟩
                · rintro ⟨-, hres⟩
                  rw [hres, htail]

/-- C1: behaviour of the bulk loader on rows whose field count differs from
the header. A short row (header name:cidr:attributes, data row a:b) is
padded with None by the csv reader, so it passes the field-count check and
the load then dies inside attribute transformation with a TypeError that
cites no line number; for an attribute-less resource the same short row
dies in the coercion loop with the generic parse error citing line 2
instead of the wrong-number-of-fields error; only a row with extra fields
reaches the intended wrong-number-of-fields error citing line 2. -/
theorem c1_short_row_behavior :
    process_bulk_add ("devices") ["name:cidr:attributes", "a:b"] =
      Except.error (CbError.typeError ("NoneType object is not iterable")) ∧
    process_bulk_add ("attributes") ["name:cidr", "a"] =
      Except.error (CbError.badParameter ("Error parsing file on line 2")) ∧
    process_bulk_add ("devices") ["name:cidr:attributes", "a:b:c:d"] =
      Except.error (CbError.badParameter ("File has wrong number of fields on line 2")) :=
  ⟨rfl, rfl, rfl⟩

/-- C2: the bulk load is atomic: it succeeds with exactly the ordered list
of every data row's transformed record when every row transform succeeds,
and otherwise it is an error carrying no records at all. -/
theorem c2_bulk_load_atomic (p : String) (lines : List String) (res : List Row) :
    process_bulk_add p lines = Except.ok res ↔
      ((∀ r ∈ bulkResults p lines, isOkE r = true) ∧
        res = okList (bulkResults p lines)) := by
  cases lines with
  | nil =>
      constructor
      · intro h
        have h2 : Except.ok (ε := CbError) ([] : List Row) = Except.ok res := h
        rw [← Except.ok.inj h2]
        exact ⟨(by intro r hr; cases hr), rfl⟩
      · rintro ⟨-, hres⟩
        rw [hres]
        rfl
  | cons hdr rest => exact bulkLoop_ok_iff p (lineFields hdr) rest Option.none 2 res

/-- C2 witness: the atomicity statement applied to a concrete two-line file
whose single data row succeeds. -/
theorem c2_bulk_load_atomic_witness :
    (∀ r ∈ bulkResults ("attributes") ["name:cidr", "a:10.0.0.0/8"], isOkE r = true) ∧
      [[(some ("name"), PyVal.str ("a")), (some ("cidr"), PyVal.str ("10.0.0.0/8"))]] =
        okList (bulkResults ("attributes") ["name:cidr", "a:10.0.0.0/8"]) :=
  (c2_bulk_load_atomic ("attributes") ["name:cidr", "a:10.0.0.0/8"]
    [[(some ("name"), PyVal.str ("a")), (some ("cidr"), PyVal.str ("10.0.0.0/8"))]]).mp rfl

/-- C3 counterexample: a bulk row with the field value TRUE is not coerced
to a boolean: the title-cased check matches but ast.literal_eval of the
original string raises ValueError, aborting the load. -/
theorem c3_upper_true_not_coerced :
    process_bulk_add ("attributes") ["name:up", "x:TRUE"] =
      Except.error (CbError.valueError ("malformed string")) := rfl

/-- C3 amended: detection is case-insensitive but evaluation is not: a field
value exactly True becomes the boolean true, any other casing such as TRUE
makes the literal evaluation fail with ValueError and abort the load, and in
general the per-entry coercion can only produce a boolean from the exact
strings True and False. -/
theorem c3_boolean_coercion_amended :
    (process_bulk_add ("attributes") ["name:up", "x:True"] =
        Except.ok [[(some ("name"), PyVal.str ("x")), (some ("up"), PyVal.bool true)]]) ∧
    (process_bulk_add ("attributes") ["name:up", "x:TRUE"] =
        Except.error (CbError.valueError ("malformed string"))) ∧
    (∀ (s : String) (k k2 : Option String) (b : Bool) (n : Nat),
        coerceEntry n (k, PyVal.str s) = Except.ok (k2, PyVal.bool b) →
        k2 = k ∧ ((s = "True" ∧ b = true) ∨ (s = "False" ∧ b = false))) := by
  refine ⟨rfl, rfl, ?_⟩
  intro s k k2 b n h
  rw [show coerceEntry n (k, PyVal.str s) =
      (if pyTitle s = "True" ∨ pyTitle s = "False" then
        match literalEvalBool s with
        | Except.error e => Except.error e
        | Except.ok b2 => Except.ok (k, b2)
      else Except.ok (k, PyVal.str s)) from rfl] at h
  by_cases ht : pyTitle s = "True" ∨ pyTitle s = "False"
  · rw [if_pos ht] at h
    unfold literalEvalBool at h
    by_cases h1 : s = "True"
    · rw [if_pos h1] at h
      simp only [Except.ok.injEq, Prod.mk.injEq, PyVal.bool.injEq] at h
      exact ⟨h.1.symm, Or.inl ⟨h1, h.2.symm⟩⟩
    · rw [if_neg h1] at h
      by_cases h2 : s = "False"
      · rw [if_pos h2] at h
        simp only [Except.ok.injEq, Prod.mk.injEq, PyVal.bool.injEq] at h
        exact ⟨h.1.symm, Or.inr ⟨h2, h.2.symm⟩⟩
      · rw [if_neg h2] at h
        cases h
  · rw [if_neg ht] at h
    simp only [Except.ok.injEq, Prod.mk.injEq] at h
    cases h.2

/-- C3 witness: the general conjunct of the amended statement applied to a
concrete coercion of the exact string True. -/
theorem c3_boolean_coercion_amended_witness :
    (some ("up") : Option String) = some ("up") ∧
      (("True" = "True" ∧ true = true) ∨ ("True" = "False" ∧ true = false)) :=
  c3_boolean_coercion_amended.2.2 ("True") (some ("up")) (some ("up")) true 2 rfl

theorem pyval_isNone_iff (v : PyVal) : v.isNone = true ↔ v = PyVal.none := by
  cases v <;> simp [PyVal.isNone]

theorem constrainLoop_snd_lookup (cf : List String) :
    ∀ (cs : List (String × PyVal)) (r : Rec), (r.map Prod.fst).Nodup → ∀ k,
      lookupA (constrainLoop cs r cf).2 k =
        if k ∈ cf then Option.none else lookupA r k := by
  induction cf with
  | nil =>
      intro cs r hnd k
      simp [constrainLoop]
  | cons c rest ih =>
      intro cs r hnd k
      cases hp : popA r c with
      | none =>
          simp only [constrainLoop, hp]
          rw [ih cs r hnd k]
          by_cases hk : k = c
          · subst hk
            have hnone : lookupA r k = Option.none := (popA_eq_none_iff r k).mp hp
            by_cases hin : k ∈ rest
            · simp [hin]
            · simp [hin, hnone]
          · simp [List.mem_cons, hk]
      | some p =>
          obtain ⟨v, r2⟩ := p
          simp only [constrainLoop, hp]
          have hnd2 := (popA_some_nodup r c v r2 hnd hp).1
          rw [ih (insertA cs c v) r2 hnd2 k]
          by_cases hk : k = c
          · subst hk
            have h0 : lookupA r2 k = Option.none := (popA_some_nodup r k v r2 hnd hp).2
            by_cases hin : k ∈ rest
            · simp [hin]
            · simp [hin, h0]
          · have heq : lookupA r2 k = lookupA r k := popA_some_lookup_ne r c k v r2 hp hk
            simp [List.mem_cons, hk, heq]

theorem constrainLoop_fst_lookup (cf : List String) :
    ∀ (cs : List (String × PyVal)) (r : Rec), (r.map Prod.fst).Nodup → ∀ k,
      lookupA (constrainLoop cs r cf).1 k =
        if k ∈ cf ∧ (lookupA r k).isSome then lookupA r k else lookupA cs k := by
  induction cf with
  | nil =>
      intro cs r hnd k
      simp [constrainLoop]
  | cons c rest ih =>
      intro cs r hnd k
      cases hp : popA r c with
      | none =>
          have hcnone : lookupA r c = Option.none := (popA_eq_none_iff r c).mp hp
          simp only [constrainLoop, hp]
          rw [ih cs r hnd k]
          by_cases hk : k = c
          · subst hk
            simp [hcnone]
          · simp [List.mem_cons, hk]
      | some p =>
          obtain ⟨v, r2⟩ := p
          simp only [constrainLoop, hp]
          have hnd2 := (popA_some_nodup r c v r2 hnd hp).1
          rw [ih (insertA cs c v) r2 hnd2 k]
          by_cases hk : k = c
          · subst hk
            have h0 : lookupA r2 k = Option.none := (popA_some_nodup r k v r2 hnd hp).2
            have hlook : lookupA r k = some v := popA_some_lookup r k v r2 hp
            simp [h0, hlook, lookupA_insertA_self]
          · have heq : lookupA r2 k = lookupA r k := popA_some_lookup_ne r c k v r2 hp hk
            have hins : lookupA (insertA cs c v) k = lookupA cs k :=
              lookupA_insertA_ne cs c k v hk
            simp [List.mem_cons, hk, heq, hins]

theorem constraintsOf_constrainOne (cf : List String) (r : Rec)
    (hnd : (r.map Prod.fst).Nodup) (c : String) :
    constraintsOf (constrainOne cf r) c =
      if c ∈ cf ∧ (lookupA r c).isSome then lookupA r c else Option.none := by
  have hself : lookupA (constrainOne cf r) ("constraints") =
      some (PyVal.dict (constrainLoop [] r cf).1) :=
    lookupA_insertA_self (constrainLoop [] r cf).2 ("constraints")
      (PyVal.dict (constrainLoop [] r cf).1)
  unfold constraintsOf
  rw [hself]
  have h1 := constrainLoop_fst_lookup cf [] r hnd c
  simpa [lookupA] using h1

theorem lookupA_constrainOne (cf : List String) (r : Rec)
    (hnd : (r.map Prod.fst).Nodup) (k : String) (hk : k ≠ "constraints") :
    lookupA (constrainOne cf r) k = if k ∈ cf then Option.none else lookupA r k := by
  have h1 : lookupA (constrainOne cf r) k = lookupA (constrainLoop [] r cf).2 k :=
    lookupA_insertA_ne (constrainLoop [] r cf).2 ("constraints") k
      (PyVal.dict (constrainLoop [] r cf).1) hk
  rw [h1, constrainLoop_snd_lookup cf [] r hnd k]

/-- C7: after constraint extraction every record carries a constraints dict;
for records with unique keys every present constrained field moves into it
under its former value and disappears from the top level, absent constrained
fields are skipped (the constraints dict stays empty for them), other fields
are untouched; the shape of the argument (single record or list) is
preserved; and the concrete two-record example from the spec evaluates
exactly as stated. -/
theorem c7_constraints_extraction :
    (∀ (cf : List String) (r : Rec),
        ∃ m, lookupA (constrainOne cf r) ("constraints") = some (PyVal.dict m)) ∧
    (∀ (cf : List String) (r : Rec), (r.map Prod.fst).Nodup →
        (∀ c ∈ cf, ∀ v, lookupA r c = some v →
            constraintsOf (constrainOne cf r) c = some v) ∧
        (∀ c ∈ cf, c ≠ "constraints" →
            lookupA (constrainOne cf r) c = Option.none) ∧
        (∀ c, lookupA r c = Option.none →
            constraintsOf (constrainOne cf r) c = Option.none) ∧
        (∀ k, k ∉ cf → k ≠ "constraints" →
            lookupA (constrainOne cf r) k = lookupA r k)) ∧
    (∀ (cf : List String) (r : Rec),
        process_constraints (CData.single r) cf = CData.single (constrainOne cf r)) ∧
    (∀ (cf : List String) (rs : List Rec),
        process_constraints (CData.many rs) cf = CData.many (rs.map (constrainOne cf))) ∧
    (process_constraints (CData.many [[("a", PyVal.int 1)], [("b", PyVal.int 2)]]) ["a"] =
      CData.many [[("constraints", PyVal.dict [("a", PyVal.int 1)])],
        [("b", PyVal.int 2), ("constraints", PyVal.dict [])]]) := by
  refine ⟨?_, ?_, fun cf r => rfl, fun cf rs => rfl, rfl⟩
  · intro cf r
    exact ⟨(constrainLoop [] r cf).1,
      lookupA_insertA_self (constrainLoop [] r cf).2 ("constraints")
        (PyVal.dict (constrainLoop [] r cf).1)⟩
  · intro cf r hnd
    refine ⟨?_, ?_, ?_, ?_⟩
    · intro c hc v hv
      rw [constraintsOf_constrainOne cf r hnd c, hv]
      simp [hc]
    · intro c hc hcn
      rw [lookupA_constrainOne cf r hnd c hcn]
      simp [hc]
    · intro c hv
      rw [constraintsOf_constrainOne cf r hnd c, hv]
      simp
    · intro k hk hkc
      rw [lookupA_constrainOne cf r hnd k hkc]
      simp [hk]

/-- C7 witness: a present constrained field of a concrete record ends up in
the constraints dict under its former value. -/
theorem c7_constraints_extraction_witness :
    constraintsOf (constrainOne ["a"] [("a", PyVal.int 1)]) ("a") = some (PyVal.int 1) :=
  ((c7_constraints_extraction.2.1 ["a"] [("a", PyVal.int 1)] (by simp)).1 ("a")
    (List.mem_singleton.mpr rfl) (PyVal.int 1) rfl)

/-- C6: under the Lookup Service contract (a returned object exposes an id
field), natural-key resolution raises the UsageError naming the resource
type exactly when the lookup returned no object or returned an object whose
id is None, and otherwise returns the id it found. -/
theorem c6_natural_key_resolution (obj : Option Rec) (name : String)
    (hcontract : ∀ o, obj = some o → (lookupA o ("id")).isSome = true) :
    ((get_resource_by_natural_key obj name =
        Except.error (CbError.usageError
          ("No matching " ++ name ++ " found; try lookup using option \"-i\" / \"--id\"."))) ↔
      (obj = Option.none ∨ ∃ o, obj = some o ∧ lookupA o ("id") = some PyVal.none)) ∧
    (∀ o v, obj = some o → lookupA o ("id") = some v → v.isNone = false →
      get_resource_by_natural_key obj name = Except.ok v) := by
  cases obj with
  | none =>
      constructor
      · exact ⟨fun _ => Or.inl rfl, fun _ => rfl⟩
      · intro o v h
        cases h
  | some o =>
      have hid := hcontract o rfl
      cases hv : lookupA o ("id") with
      | none => rw [hv] at hid; cases hid
      | some v =>
          cases hn : v.isNone with
          | true =>
              have hveq : v = PyVal.none := (pyval_isNone_iff v).mp hn
              subst hveq
              have hdef : get_resource_by_natural_key (some o) name =
                  Except.error (CbError.usageError
                    ("No matching " ++ name ++ " found; try lookup using option \"-i\" / \"--id\".")) := by
                unfold get_resource_by_natural_key
                simp [hv, PyVal.isNone]
              constructor
              · constructor
                · intro _
                  exact Or.inr ⟨o, rfl, hv⟩
                · intro _
                  exact hdef
              · intro o2 v2 ho2 hv2 hn2
                have ho : o2 = o := Option.some.inj ho2.symm
                rw [ho, hv] at hv2
                have hv2e : v2 = PyVal.none := (Option.some.inj hv2).symm
                rw [hv2e] at hn2
                cases hn2
          | false =>
              have hdef : get_resource_by_natural_key (some o) name = Except.ok v := by
                unfold get_resource_by_natural_key
                simp [hv, hn]
              constructor
              · constructor
                · intro h
                  rw [hdef] at h
                  cases h
                · rintro (h | ⟨o2, ho2, hid2⟩)
                  · cases h
                  · have ho : o2 = o := (Option.some.inj ho2).symm
                    rw [ho, hv] at hid2
                    have hveq : v = PyVal.none := Option.some.inj hid2
                    rw [hveq] at hn
                    cases hn
              · intro o2 v2 ho2 hv2 hn2
                have ho : o2 = o := Option.some.inj ho2.symm
                rw [ho, hv] at hv2
                have hv2e : v2 = v := (Option.some.inj hv2).symm
                rw [hv2e, hdef]

/-- C6 witness: resolution of a concrete lookup result with id 5 returns 5. -/
theorem c6_natural_key_resolution_witness :
    get_resource_by_natural_key (some [("id", PyVal.int 5)]) ("networks") =
      Except.ok (PyVal.int 5) :=
  (c6_natural_key_resolution (some [("id", PyVal.int 5)]) ("networks")
    (fun o h => by cases h; rfl)).2 [("id", PyVal.int 5)] (PyVal.int 5) rfl rfl rfl

/-- C8 counterexample: the data-preparation prefix of list_subcommand leaves
the caller-visible parent parameter mapping (aliased by data) changed: for
parent params containing only the id, the parent mapping afterwards is the
empty dict, not the original one. -/
theorem c8_parent_params_mutated :
    list_subcommand_data [("id", PyVal.int 5)] [] = Except.ok ([], PyVal.int 5) ∧
      ([] : Rec) ≠ [("id", PyVal.int 5)] :=
  ⟨rfl, by simp⟩

/-- C8 amended: the merge and the id extraction happen in place on the
parent parameter dict: on success the returned dict (which is also the
caller-visible parent mapping afterwards) is the merged map with own params
overlaid and the id binding removed, the extracted value is the merged map's
id entry, own params win on collisions, keys absent from own params keep the
parent value, and a missing id raises KeyError. -/
theorem c8_in_place_merge_amended :
    (∀ (pp op d : Rec) (v : PyVal),
        list_subcommand_data pp op = Except.ok (d, v) →
        (lookupA (dictUpdate pp op) ("id") = some v ∧
          (∀ k, k ≠ "id" → lookupA d k = lookupA (dictUpdate pp op) k) ∧
          ((pp.map Prod.fst).Nodup → lookupA d ("id") = Option.none))) ∧
    (∀ (pp op : Rec), lookupA (dictUpdate pp op) ("id") = Option.none →
        list_subcommand_data pp op = Except.error (CbError.keyError ("id"))) ∧
    (∀ (pp op : Rec), (op.map Prod.fst).Nodup →
        ∀ k w, lookupA op k = some w → lookupA (dictUpdate pp op) k = some w) ∧
    (∀ (pp op : Rec) (k : String), lookupA op k = Option.none →
        lookupA (dictUpdate pp op) k = lookupA pp k) := by
  refine ⟨?_, ?_, ?_, ?_⟩
  · intro pp op d v h
    have h0 : list_subcommand_data pp op =
        (match popA (dictUpdate pp op) ("id") with
          | some (v2, d2) => Except.ok (d2, v2)
          | Option.none => Except.error (CbError.keyError ("id"))) := rfl
    rw [h0] at h
    cases hp : popA (dictUpdate pp op) ("id") with
    | none => rw [hp] at h; cases h
    | some p =>
        obtain ⟨v2, d2⟩ := p
        rw [hp] at h
        have h2 : Except.ok (ε := CbError) (d2, v2) = Except.ok (d, v) := h
        obtain ⟨hd, hv⟩ := Prod.mk.inj (Except.ok.inj h2)
        rw [← hd, ← hv]
        refine ⟨popA_some_lookup _ _ _ _ hp, ?_, ?_⟩
        · intro k hk
          exact popA_some_lookup_ne _ _ _ _ _ hp hk
        · intro hnd
          exact (popA_some_nodup (dictUpdate pp op) ("id") v2 d2
            (dictUpdate_nodup op pp hnd) hp).2
  · intro pp op h
    have h0 : list_subcommand_data pp op =
        (match popA (dictUpdate pp op) ("id") with
          | some (v2, d2) => Except.ok (d2, v2)
          | Option.none => Except.error (CbError.keyError ("id"))) := rfl
    rw [h0, (popA_eq_none_iff (dictUpdate pp op) ("id")).mpr h]
  · intro pp op hnd k w h
    exact lookupA_dictUpdate_some op hnd pp k w h
  · intro pp op k h
    exact lookupA_dictUpdate_none op pp k h

/-- C8 witness: the amended statement applied to concrete parent and own
params: the merged map's id entry is the extracted parent id 5. -/
theorem c8_in_place_merge_amended_witness :
    lookupA (dictUpdate [("id", PyVal.int 5), ("site_id", PyVal.int 1)]
        [("limit", PyVal.int 10)]) ("id") = some (PyVal.int 5) :=
  (c8_in_place_merge_amended.1 [("id", PyVal.int 5), ("site_id", PyVal.int 1)]
    [("limit", PyVal.int 10)] [("site_id", PyVal.int 1), ("limit", PyVal.int 10)]
    (PyVal.int 5) rfl).1
